import Mathlib

/-!
Verification development for the Telco-Customer-Churn feature pipeline.

The Python sources embedded here are:
  * `src/features/build_features.py` — `_map_binary_series`, `build_features`
  * `src/data/preprocess.py`         — `preprocess_data`
  * `scripts/run_pipeline.py`        — artifact persistence in `main`

A pandas `DataFrame` is modelled as an ordered list of named, dtyped
columns; a cell is a `CVal`.  Pandas floats are modelled as rationals
(the pipeline only parses and fills decimal literals; no float rounding
is exercised by any property proved here).
-/

namespace TelcoChurn

/-- Pandas dtypes that occur in the pipeline.  `nullableInt` is pandas'
nullable `"Int64"` extension dtype, `int64`/`float64` the plain numpy
dtypes, `boolDt` the numpy bool dtype, `object` the object dtype that
CSV text columns arrive with. -/
inductive Dtype where
  | object | boolDt | int64 | float64 | nullableInt
deriving DecidableEq, Repr

/-- One cell of a column: a string, an integer, a float (as a rational),
a boolean, or a missing value (NaN / pd.NA). -/
inductive CVal where
  | str (s : String)
  | int (n : Int)
  | num (q : ℚ)
  | bool (b : Bool)
  | na
deriving DecidableEq, Repr

/-- A pandas Series living inside a DataFrame: a name, a dtype and the
cells in row order. -/
structure Column where
  name : String
  dtype : Dtype
  values : List CVal
deriving DecidableEq, Repr

/-- A pandas DataFrame: ordered list of columns.  Column names are
unique in every frame this pipeline builds (pandas duplicate labels are
out of scope; theorems that need uniqueness take it as a hypothesis). -/
structure DataFrame where
  cols : List Column
deriving DecidableEq, Repr

/-- Models `pd.Series.unique`: distinct elements in first-seen order.
`seen` accumulates the elements already emitted. -/
def uniqAux [DecidableEq α] (seen : List α) : List α → List α
  | [] => []
  | x :: xs => if x ∈ seen then uniqAux seen xs else x :: uniqAux (x :: seen) xs

/-- Distinct elements of a list, first occurrence kept, order preserved. -/
def uniq [DecidableEq α] (l : List α) : List α := uniqAux [] l

/-- Lexicographic order on character lists by code point — the order
Python's `sorted` and pandas use for `str` values.  A proper prefix is
smaller. -/
def charsLt : List Char → List Char → Bool
  | [], [] => false
  | [], _ :: _ => true
  | _ :: _, [] => false
  | a :: as, b :: bs => if a < b then true else if b < a then false else charsLt as bs

/-- Python's `<` on two strings (code-point lexicographic). -/
def strLt (a b : String) : Bool := charsLt a.toList b.toList

/-- Python's `<=` on two strings. -/
def strLe (a b : String) : Bool := ! strLt b a

/-- Python's `str.strip()` (also pandas `.str.strip()`): remove leading
and trailing whitespace. -/
def strTrim (s : String) : String :=
  ⟨((s.toList.dropWhile Char.isWhitespace).reverse.dropWhile Char.isWhitespace).reverse⟩

/-- Insert a string into a list sorted ascending (lexicographic by code
point, the same order Python's `sorted` uses on `str`). -/
def insertAsc (x : String) : List String → List String
  | [] => [x]
  | y :: ys => if strLe x y then x :: y :: ys else y :: insertAsc x ys

/-- Python's `sorted` on a list of strings: ascending lexicographic. -/
def sortStrings (l : List String) : List String := l.foldr insertAsc []

/-- Python set equality `set(l) == {a, b}`: both members occur in `l`
and nothing else does. -/
def setEqPair (l : List String) (a b : String) : Prop :=
  a ∈ l ∧ b ∈ l ∧ ∀ x ∈ l, x = a ∨ x = b

instance (l : List String) (a b : String) : Decidable (setEqPair l a b) := by
  unfold setEqPair; infer_instance

/-- A cell of a string series (a pandas Series after `astype(str)`, or
any object series holding strings): `none` is a missing value. -/
abbrev SVal := Option String

/-- The dict `{"Yes": 1, "No": 0}` used by the first mapping tier. -/
def yesNoMap (x : String) : Option Int :=
  if x = "Yes" then some 1 else if x = "No" then some 0 else none

/-- The dict `{"Male": 1, "Female": 0}` used by the second mapping tier. -/
def maleFemaleMap (x : String) : Option Int :=
  if x = "Male" then some 1 else if x = "Female" then some 0 else none

/-- The dict `{sorted_vals[1]: 1, sorted_vals[0]: 0}` used by the
generic tier (`sv` is the sorted list of the two distinct values). -/
def genericMap (sv : List String) (x : String) : Option Int :=
  if x = sv.getD 1 "" then some 1 else if x = sv.getD 0 "" then some 0 else none

/-- Models `pd.Series.map(dict)`: each missing cell stays missing and each
value not found in the dict becomes missing (NaN). -/
def seriesMap (m : String → Option Int) (s : List SVal) : List (Option Int) :=
  s.map (fun v => v.bind m)

/-- Models `_map_binary_series` from `src/features/build_features.py`.

```
vals = list(pd.Series(s.dropna().unique()).astype(str))
valset = set(vals)
if valset == {"Yes", "No"}:      return s.map({"Yes": 1, "No": 0}).astype("Int64")
if valset == {"Male", "Female"}: return s.map({"Male": 1, "Female": 0}).astype("Int64")
if len(vals) == 2:
    sorted_vals = sorted(vals)
    mapping = {sorted_vals[1]: 1, sorted_vals[0]: 0}
    return s.map(mapping).astype("Int64")
return s
```

The input is a string series (its caller always passes
`df[col].astype(str)`, and on a string series the `astype(str)` inside
`vals` is the identity), so `vals` is `uniq ∘ filterMap id` — the
distinct non-missing values in first-seen order (`valsOf` below).
`Sum.inl` is the mapped `Int64` outcome, `Sum.inr` the unchanged series. -/
def valsOf (s : List SVal) : List String := uniq (s.filterMap id)

/-- The body of `_map_binary_series`; see `valsOf` for `vals`. -/
def mapBinarySeries (s : List SVal) : List (Option Int) ⊕ List SVal :=
  if setEqPair (valsOf s) "Yes" "No" then .inl (seriesMap yesNoMap s)
  else if setEqPair (valsOf s) "Male" "Female" then .inl (seriesMap maleFemaleMap s)
  else if (valsOf s).length = 2 then .inl (seriesMap (genericMap (sortStrings (valsOf s))) s)
  else .inr s

/-- The pure 0/1 code determined by a two-element value set `{a, b}`
with `a < b`: the lexicographically larger value `b` goes to 1, the
smaller `a` to 0, anything else (only missing can occur) to missing. -/
def pairCode (a b : String) (x : String) : Option Int :=
  if x = b then some 1 else if x = a then some 0 else none

/-! ### C2: the Yes/No tier -/

/-- Models `.astype(str)` on a pandas `Int64` series: integers print in
decimal, the missing marker `pd.NA` prints as the non-missing string
`"<NA>"`. -/
def int64AstypeStr (o : List (Option Int)) : List SVal :=
  o.map (fun v => match v with
    | some n => some (toString n)
    | none => some "<NA>")

/-! ### `build_features` from `src/features/build_features.py`

The Python function receives a frame, copies it, and then performs six
steps.  Steps that assign one column at a time (`for col in binary_cols:
df[col] = ...`, `df[bool_cols] = ...`, the STEP-6 loop) only ever touch
the named column and depend only on that column's own content, so with
unique column labels each such loop is the per-column map written below
(pandas frames with duplicate labels are out of scope). -/

/-- Models `.astype(str)` on one cell of an object column: strings stay
themselves, numbers print in decimal, booleans print `True`/`False`,
and a missing value (`np.nan`, which is what CSV-loaded object columns
hold) becomes the non-missing string `"nan"`.  Float cells are rendered
via `Rat`'s `toString`; object columns in this pipeline only ever hold
strings and missing values, so that clause is never exercised. -/
def astypeStr : CVal → String
  | .str s => s
  | .int n => toString n
  | .num q => toString q
  | .bool b => if b then "True" else "False"
  | .na => "nan"

/-- A whole cell after `.astype(str)`: never missing. -/
def svalOfCell (v : CVal) : SVal := some (astypeStr v)

/-- A string-series cell stored back into an object column. -/
def cellOfSVal : SVal → CVal
  | some s => .str s
  | none => .na

/-- An `Int64` cell produced by `.map({...}).astype("Int64")`. -/
def intCellOf : Option Int → CVal
  | some n => .int n
  | none => .na

/-- STEP 3 body for one column:
`df[col] = _map_binary_series(df[col].astype(str))`.
A mapped result is an `Int64` column; an unmapped result leaves the
(stringified) object column in place. -/
def binEncodeColumn (c : Column) : Column :=
  match mapBinarySeries (c.values.map svalOfCell) with
  | .inl o => ⟨c.name, .nullableInt, o.map intCellOf⟩
  | .inr t => ⟨c.name, .object, t.map cellOfSVal⟩

/-- Models `df[c].nunique()`: the number of distinct non-missing values. -/
def nuniqueCol (c : Column) : Nat :=
  (uniq (c.values.filter (fun v => decide (v ≠ CVal.na)))).length

/-- Membership in `binary_cols`: an object column other than the
target with `nunique() == 2` (STEP 1 + STEP 2). -/
def binaryPred (target : String) (c : Column) : Prop :=
  c.dtype = .object ∧ c.name ≠ target ∧ nuniqueCol c = 2

instance (target : String) (c : Column) : Decidable (binaryPred target c) := by
  unfold binaryPred; infer_instance

/-- Membership in `multi_cat_cols`: an object column other than the
target with `nunique() > 2` (STEP 1 + STEP 2). -/
def multiPred (target : String) (c : Column) : Prop :=
  c.dtype = .object ∧ c.name ≠ target ∧ 2 < nuniqueCol c

instance (target : String) (c : Column) : Decidable (multiPred target c) := by
  unfold multiPred; infer_instance

/-- Models `binary_cols` of STEP 2, in frame order. -/
def binaryColsOf (df : DataFrame) (target : String) : List String :=
  (df.cols.filter (fun c => decide (binaryPred target c))).map Column.name

/-- Models `multi_cat_cols` of STEP 2, in frame order. -/
def multiCatColsOf (df : DataFrame) (target : String) : List String :=
  (df.cols.filter (fun c => decide (multiPred target c))).map Column.name

/-- STEP 3: binary-encode every column of `binary_cols`. -/
def binaryEncodeStep (df : DataFrame) (target : String) : DataFrame :=
  ⟨df.cols.map (fun c => if binaryPred target c then binEncodeColumn c else c)⟩

/-- Models `.astype("Int64")` on one cell of a bool column. -/
def boolCellToInt : CVal → CVal
  | .bool b => .int (if b then 1 else 0)
  | v => v

/-- STEP 4 for one column: `df[bool_cols] = df[bool_cols].astype("Int64")`. -/
def boolColFn (c : Column) : Column :=
  if c.dtype = .boolDt then ⟨c.name, .nullableInt, c.values.map boolCellToInt⟩ else c

/-- STEP 4: convert every bool-dtyped column to `Int64`.  Note it does
*not* exclude the target column. -/
def boolStep (df : DataFrame) : DataFrame := ⟨df.cols.map boolColFn⟩

/-- The string content of an object cell (object columns in this
pipeline hold strings and missing values). -/
def cellStr : CVal → Option String
  | .str s => some s
  | _ => none

/-- Models `pd.get_dummies` categories for one object column: the distinct
non-missing values, sorted ascending. -/
def categoriesOf (c : Column) : List String :=
  sortStrings (uniq (c.values.filterMap cellStr))

/-- The indicator columns `pd.get_dummies(..., drop_first=True)` builds
for one column: one bool column per category except the first
(lexicographically smallest) one, named `col_category`; a missing row
activates no indicator. -/
def dummiesForCol (c : Column) : List Column :=
  ((categoriesOf c).drop 1).map (fun cat =>
    ⟨c.name ++ "_" ++ cat, .boolDt,
      c.values.map (fun v => .bool (decide (v = .str cat)))⟩)

/-- First column with the given label. -/
def findCol (df : DataFrame) (n : String) : Option Column :=
  df.cols.find? (fun c => decide (c.name = n))

def concatMap (f : α → List β) : List α → List β
  | [] => []
  | x :: xs => f x ++ concatMap f xs

/-- All indicator columns, grouped per encoded column in the order of
the `columns=` argument (which is how `pd.get_dummies` appends them). -/
def dummySegment (df : DataFrame) (names : List String) : List Column :=
  concatMap (fun n =>
    match findCol df n with
    | some c => dummiesForCol c
    | none => []) names

/-- STEP 5: `df = pd.get_dummies(df, columns=multi_cat_cols,
drop_first=True)` — the listed columns are dropped, the remaining
columns keep their order, and the indicator groups are appended. -/
def dummiesStep (df : DataFrame) (names : List String) : DataFrame :=
  if names = [] then df
  else ⟨df.cols.filter (fun c => decide (c.name ∉ names)) ++ dummySegment df names⟩

/-- Models `pd.api.types.is_integer_dtype`: true for `int64` and `Int64`,
false for bool/float/object. -/
def isIntegerDtype (d : Dtype) : Prop := d = .int64 ∨ d = .nullableInt

instance (d : Dtype) : Decidable (isIntegerDtype d) := by
  unfold isIntegerDtype; infer_instance

/-- Models `.fillna(0)` on one cell. -/
def fillZeroCell : CVal → CVal
  | .na => .int 0
  | v => v

/-- STEP 6 for one column: for `c in binary_cols`, if the column is
integer-dtyped, `df[c] = df[c].fillna(0).astype("Int64")`. -/
def fillColFn (binNames : List String) (c : Column) : Column :=
  if c.name ∈ binNames ∧ isIntegerDtype c.dtype then
    ⟨c.name, .nullableInt, c.values.map fillZeroCell⟩
  else c

/-- STEP 6 over the whole frame. -/
def fillStep (df : DataFrame) (binNames : List String) : DataFrame :=
  ⟨df.cols.map (fillColFn binNames)⟩

/-- The spec's Dtype Normalizer (§4.4): the two dtype-cleaning steps of
`build_features` (STEP 4 bool→Int64 and STEP 6 fillna+Int64 on the
binary columns) assembled as one step. -/
def dtypeNormalize (df : DataFrame) (binNames : List String) : DataFrame :=
  fillStep (boolStep df) binNames

/-- Models `build_features(df, target_col)`: classify on the input frame, then
STEP 3 (binary encode), STEP 4 (bool→Int64), STEP 5 (one-hot
expansion), STEP 6 (fill + Int64). -/
def buildFeatures (df : DataFrame) (target : String) : DataFrame :=
  fillStep
    (dummiesStep (boolStep (binaryEncodeStep df target)) (multiCatColsOf df target))
    (binaryColsOf df target)

/-- The indicator columns `buildFeatures` appends (the `dummySegment`
of its STEP-5 call). -/
def dummyColsOf (df : DataFrame) (target : String) : List Column :=
  dummySegment (boolStep (binaryEncodeStep df target)) (multiCatColsOf df target)

/-! ### C3: no silent partially-null binary columns -/

/-- C3 counterexample input: a nominally binary column (`nunique() == 2`)
holding `["Yes", "No", NaN]`. -/
def dfYesNoMissing : DataFrame :=
  ⟨[⟨"Partner", .object, [.str "Yes", .str "No", CVal.na]⟩]⟩

/-! ### C4: missing values are not preserved by binary encoding -/

/-- C4 failing input: a nominally binary column (`nunique() == 2`)
holding the literal string `"nan"`, another value, and a genuine
missing cell. -/
def dfMissingBinary : DataFrame :=
  ⟨[⟨"Partner", .object, [.str "zz", .str "nan", CVal.na]⟩]⟩

/-! ### C6: the target column -/

/-- C6 counterexample input: a bool-dtyped target column. -/
def dfBoolTarget : DataFrame :=
  ⟨[⟨"Churn", .boolDt, [.bool true, .bool false]⟩]⟩

/-- A Telco `Contract` column with three categories (the spec's own
example). -/
def contractCol : Column :=
  ⟨"Contract", .object, [.str "Month-to-month", .str "One year", .str "Two year"]⟩

def dfContract : DataFrame := ⟨[contractCol]⟩

/-! ### `preprocess_data` from `src/data/preprocess.py`

```
df.columns = df.columns.str.strip()
for col in ["customerID", "CustomerID", "customer_id"]:
    if col in df.columns: df = df.drop(columns=[col])
if target_col in df.columns and df[target_col].dtype == "object":
    df[target_col] = df[target_col].str.strip().map({"Yes": 1, "No": 0})
if "TotalCharges" in df.columns:
    df["TotalCharges"] = pd.to_numeric(df["TotalCharges"], errors="coerce")
if "SeniorCitizen" in df.columns:
    df["SeniorCitizen"] = df["SeniorCitizen"].fillna(0).astype("int")
num_cols = df.select_dtypes(include=["number"]).columns
df[num_cols] = df[num_cols].fillna(0)
```

Each guarded statement assigns a single named column from its own
content, so the function is the per-column composition below. -/

/-- Decimal value of a digit list. -/
def digitsVal (cs : List Char) : Nat :=
  cs.foldl (fun a c => a * 10 + (c.toNat - 48)) 0

/-- The decimal-literal fragment of Python float parsing used by
`pd.to_numeric(..., errors="coerce")`: optional surrounding whitespace,
optional sign, digits with an optional fractional part (`"7043"`,
`"29.85"`, `"1."`, `".5"`).  A blank or otherwise unparseable string
gives `none` (which `errors="coerce"` turns into NaN).  Exponent,
`inf`/`nan` literals are not modelled — the dataset's column holds
plain decimals and blanks. -/
def parseRat (s : String) : Option ℚ :=
  let t := (strTrim s).toList
  let sgn : ℚ := match t with
    | '-' :: _ => -1
    | _ => 1
  let rest : List Char := match t with
    | '-' :: r => r
    | '+' :: r => r
    | r => r
  let intPart := rest.takeWhile (fun c => decide (c ≠ '.'))
  let dotPart := rest.dropWhile (fun c => decide (c ≠ '.'))
  match dotPart with
  | [] =>
    if intPart.all Char.isDigit ∧ intPart ≠ [] then
      some (sgn * (digitsVal intPart : ℚ))
    else none
  | _ :: frac =>
    if frac.all Char.isDigit ∧ ¬ frac.contains '.' ∧
        intPart.all Char.isDigit ∧ (intPart ≠ [] ∨ frac ≠ []) then
      some (sgn * ((digitsVal intPart : ℚ) + (digitsVal frac : ℚ) / 10 ^ frac.length))
    else none

/-- Models `pd.to_numeric(cell, errors="coerce")`: strings parse or become
missing, numbers stay numbers, missing stays missing. -/
def toNumericCell : CVal → CVal
  | .str s =>
    match parseRat s with
    | some q => .num q
    | none => .na
  | .int n => .num n
  | .num q => .num q
  | .bool b => .num (if b then 1 else 0)
  | .na => .na

/-- Models `series.str.strip().map({"Yes": 1, "No": 0})` on one cell: the
`.str` accessor yields missing for non-strings, and `map` sends
anything outside the dict to missing. -/
def targetMapCell : CVal → CVal
  | .str s => if strTrim s = "Yes" then .int 1 else if strTrim s = "No" then .int 0 else .na
  | _ => .na

def intToNumCell : CVal → CVal
  | .int n => .num n
  | v => v

/-- Target mapping step: only an object-dtyped column named like the
target is touched; the result is `int64` when fully mapped and
`float64` (ints become floats) when any cell fell to missing. -/
def targetMapStep (targetCol : String) (c : Column) : Column :=
  if c.name = targetCol ∧ c.dtype = .object then
    if CVal.na ∈ c.values.map targetMapCell then
      ⟨c.name, .float64, (c.values.map targetMapCell).map intToNumCell⟩
    else ⟨c.name, .int64, c.values.map targetMapCell⟩
  else c

/-- TotalCharges step: `pd.to_numeric(..., errors="coerce")` produces a
float column. -/
def totalChargesStep (c : Column) : Column :=
  if c.name = "TotalCharges" then ⟨c.name, .float64, c.values.map toNumericCell⟩
  else c

/-- Python `int(q)`: truncation toward zero. -/
def ratTrunc (q : ℚ) : Int := if 0 ≤ q then q.floor else -((-q).floor)

/-- Models `fillna(0).astype("int")` on one SeniorCitizen cell (`astype(int)`
parses integer strings; the column holds 0/1 in this dataset). -/
def seniorCell : CVal → CVal
  | .na => .int 0
  | .int n => .int n
  | .num q => .int (ratTrunc q)
  | .bool b => .int (if b then 1 else 0)
  | .str s => .int (((strTrim s).toInt?).getD 0)

def seniorStep (c : Column) : Column :=
  if c.name = "SeniorCitizen" then ⟨c.name, .int64, c.values.map seniorCell⟩ else c

/-- Models `select_dtypes(include=["number"])`: int64, float64 and the
nullable `Int64` all count as numbers. -/
def isNumericDtype (d : Dtype) : Prop :=
  d = .int64 ∨ d = .float64 ∨ d = .nullableInt

instance (d : Dtype) : Decidable (isNumericDtype d) := by
  unfold isNumericDtype; infer_instance

/-- Models `fillna(0)` on a numeric column: missing becomes `0.0` on a float
column and `0` otherwise. -/
def numericFillCell (d : Dtype) : CVal → CVal
  | .na => if d = .float64 then .num 0 else .int 0
  | v => v

def numericFillStep (c : Column) : Column :=
  if isNumericDtype c.dtype then
    ⟨c.name, c.dtype, c.values.map (numericFillCell c.dtype)⟩
  else c

def idColNames : List String := ["customerID", "CustomerID", "customer_id"]

/-- Models `preprocess_data(df, target_col="Churn")`. -/
def preprocessData (df : DataFrame) (targetCol : String) : DataFrame :=
  let cols1 := df.cols.map (fun c => ⟨strTrim c.name, c.dtype, c.values⟩)
  let cols2 := cols1.filter (fun c => decide (c.name ∉ idColNames))
  let cols3 := cols2.map (targetMapStep targetCol)
  let cols4 := cols3.map totalChargesStep
  let cols5 := cols4.map seniorStep
  ⟨cols5.map numericFillStep⟩

/-! ### C8: blank TotalCharges -/

/-- C8 counterexample input. -/
def dfBlankCharges : DataFrame :=
  ⟨[⟨"TotalCharges", .object, [.str ""]⟩]⟩

/-! ### C9: the persisted serving artifacts of `scripts/run_pipeline.py`

```
feature_cols = list(df_enc.drop(columns=[target]).columns)
with open(os.path.join(artifacts_dir, "feature_columns.json"), "w") as f:
    json.dump(feature_cols, f)
preprocessing_artifacts = {"feature_column": feature_cols, "target": target}
joblib.dump(preprocessing_artifacts, os.path.join(artifacts_dir, "preprocessing.pkl"))
```

(`df_enc` is `build_features(df, target)` with the remaining bool
columns cast to int for XGBoost.)  The two filesystem writes under
`artifacts/` are the serving artifacts; `mlflow.log_text` /
`mlflow.log_artifact` mirror the same two contents to the external
tracking sink, and `mlflow.sklearn.log_model` stores the model itself,
which is not transform metadata. -/

inductive Artifact where
  | jsonList (relPath : String) (items : List String)
  | comboRecord (relPath : String) (featureNames : List String) (targetName : String)
deriving DecidableEq, Repr

/-- Models `df.drop(columns=names)`. -/
def dropCols (df : DataFrame) (names : List String) : DataFrame :=
  ⟨df.cols.filter (fun c => decide (c.name ∉ names))⟩

/-- Models `list(df_enc.drop(columns=[target]).columns)`. -/
def featureColsOf (df : DataFrame) (target : String) : List String :=
  (dropCols df [target]).cols.map Column.name

/-- Models `df_enc[c] = df_enc[c].astype(int)` for the bool columns (plain
numpy int, for XGBoost). -/
def xgbBoolColFn (c : Column) : Column :=
  if c.dtype = .boolDt then ⟨c.name, .int64, c.values.map boolCellToInt⟩ else c

def xgbBoolStep (df : DataFrame) : DataFrame := ⟨df.cols.map xgbBoolColFn⟩

/-- The serving artifacts a training run persists. -/
def runPipelineArtifacts (df : DataFrame) (target : String) : List Artifact :=
  [.jsonList "artifacts/feature_columns.json"
      (featureColsOf (xgbBoolStep (buildFeatures df target)) target),
   .comboRecord "artifacts/preprocessing.pkl"
      (featureColsOf (xgbBoolStep (buildFeatures df target)) target) target]

/-! ### C10: `build_features` does not mutate its argument

The Python function's first statement is `df = df.copy()` (line 48);
every later statement assigns into that fresh copy, so the caller's
frame object is untouched.  The call is embedded against an explicit
heap of frames: the callee allocates a copy at a fresh address, writes
the transformed frame there, and the caller's address keeps its
original contents. -/

/-- Calling `build_features` on the frame stored at address `a` of the
heap: `df.copy()` allocates the fresh address `h.length`, all writes go
there, and the result address is returned. -/
def buildFeaturesCall (h : List DataFrame) (a : Nat) (target : String) :
    List DataFrame × Nat :=
  match h.get? a with
  | none => (h, a)
  | some df => (h ++ [buildFeatures df target], h.length)

/-! ## Theorems -/

theorem charsLt_irrefl : ∀ l : List Char, charsLt l l = false := by
  intro l
  induction l with
  | nil => rfl
  | cons x xs ih =>
    rw [charsLt]
    simp [lt_irrefl, ih]

theorem charsLt_asymm : ∀ l₁ l₂ : List Char,
    charsLt l₁ l₂ = true → charsLt l₂ l₁ = false := by
  intro l₁
  induction l₁ with
  | nil =>
    intro l₂ h
    cases l₂ with
    | nil => cases h
    | cons b bs => rfl
  | cons a as ih =>
    intro l₂ h
    cases l₂ with
    | nil => cases h
    | cons b bs =>
      rw [charsLt] at h ⊢
      by_cases hab : a < b
      · have hba : ¬ b < a := lt_asymm hab
        rw [if_neg hba, if_pos hab]
      · rw [if_neg hab] at h
        by_cases hba : b < a
        · rw [if_pos hba] at h; cases h
        · rw [if_neg hab, if_neg hba] at *
          exact ih bs h

theorem strLt_asymm {a b : String} (h : strLt a b = true) : strLt b a = false :=
  charsLt_asymm _ _ h

theorem strLt_irrefl (a : String) : strLt a a = false := charsLt_irrefl _

theorem ne_of_strLt {a b : String} (h : strLt a b = true) : a ≠ b := by
  intro he
  subst he
  rw [strLt_irrefl] at h
  cases h

/-! ### Basic lemmas about `uniq`, `sortStrings` and `setEqPair` -/

theorem mem_uniqAux [DecidableEq α] {y : α} :
    ∀ (l : List α) (seen : List α), y ∈ uniqAux seen l ↔ y ∈ l ∧ y ∉ seen := by
  intro l
  induction l with
  | nil => intro seen; simp [uniqAux]
  | cons x xs ih =>
    intro seen
    by_cases hx : x ∈ seen
    · rw [uniqAux, if_pos hx, ih]
      simp only [List.mem_cons]
      constructor
      · rintro ⟨h1, h2⟩; exact ⟨Or.inr h1, h2⟩
      · rintro ⟨h1 | h1, h2⟩
        · subst h1; exact absurd hx h2
        · exact ⟨h1, h2⟩
    · rw [uniqAux, if_neg hx]
      simp only [List.mem_cons, ih]
      constructor
      · rintro (h | ⟨h1, h2⟩)
        · subst h; exact ⟨Or.inl rfl, hx⟩
        · refine ⟨Or.inr h1, fun hc => h2 (Or.inr hc)⟩
      · rintro ⟨h1 | h1, h2⟩
        · exact Or.inl h1
        · by_cases hyx : y = x
          · exact Or.inl hyx
          · refine Or.inr ⟨h1, fun hc => ?_⟩
            rcases hc with h | h
            · exact hyx h
            · exact h2 h

theorem mem_uniq [DecidableEq α] {y : α} {l : List α} : y ∈ uniq l ↔ y ∈ l := by
  unfold uniq
  rw [mem_uniqAux]
  simp

theorem nodup_uniqAux [DecidableEq α] :
    ∀ (l : List α) (seen : List α), (uniqAux seen l).Nodup := by
  intro l
  induction l with
  | nil => intro seen; simp [uniqAux]
  | cons x xs ih =>
    intro seen
    by_cases hx : x ∈ seen
    · simpa [uniqAux, if_pos hx] using ih seen
    · simp only [uniqAux, if_neg hx, List.nodup_cons]
      refine ⟨fun hc => ?_, ih (x :: seen)⟩
      exact ((mem_uniqAux xs (x :: seen)).mp hc).2 (List.mem_cons_self x seen)

theorem nodup_uniq [DecidableEq α] (l : List α) : (uniq l).Nodup :=
  nodup_uniqAux l []

theorem mem_insertAsc {x y : String} :
    ∀ l : List String, y ∈ insertAsc x l ↔ y = x ∨ y ∈ l := by
  intro l
  induction l with
  | nil => simp [insertAsc]
  | cons z zs ih =>
    rw [insertAsc]
    split
    · simp only [List.mem_cons]
    · simp only [List.mem_cons, ih]
      tauto

theorem mem_sortStrings {y : String} :
    ∀ l : List String, y ∈ sortStrings l ↔ y ∈ l := by
  intro l
  induction l with
  | nil => simp [sortStrings]
  | cons z zs ih =>
    simp only [sortStrings] at ih ⊢
    simp [List.foldr_cons, mem_insertAsc, ih]

theorem length_insertAsc (x : String) :
    ∀ l : List String, (insertAsc x l).length = l.length + 1 := by
  intro l
  induction l with
  | nil => simp [insertAsc]
  | cons z zs ih =>
    rw [insertAsc]
    split
    · simp
    · simp [ih]

theorem length_sortStrings :
    ∀ l : List String, (sortStrings l).length = l.length := by
  intro l
  induction l with
  | nil => rfl
  | cons z zs ih =>
    simp only [sortStrings] at ih ⊢
    simp [List.foldr_cons, length_insertAsc, ih]

/-- A duplicate-free list that set-equals `{a, b}` (with `a ≠ b`) is
`[a, b]` or `[b, a]`. -/
theorem nodup_pair_char {l : List String} {a b : String}
    (hnd : l.Nodup) (hab : a ≠ b) (hset : setEqPair l a b) :
    l = [a, b] ∨ l = [b, a] := by
  obtain ⟨ha, hb, hcov⟩ := hset
  match l, hnd with
  | [], _ => exact absurd ha (by simp)
  | [x], _ =>
    rw [List.mem_singleton] at ha hb
    exact absurd (ha.trans hb.symm) hab
  | x :: y :: rest, hnd =>
    have hxy : x ≠ y := by
      intro h
      have := (List.nodup_cons.mp hnd).1
      exact this (h ▸ List.mem_cons_self y rest)
    have hx : x = a ∨ x = b := hcov x (by simp)
    have hy : y = a ∨ y = b := hcov y (by simp)
    have hrest : rest = [] := by
      cases rest with
      | nil => rfl
      | cons z zs =>
        exfalso
        have hz : z = a ∨ z = b := hcov z (by simp)
        have hznx : z ≠ x := by
          intro h
          exact (List.nodup_cons.mp hnd).1 (h ▸ by simp)
        have hzny : z ≠ y := by
          intro h
          exact (List.nodup_cons.mp (List.nodup_cons.mp hnd).2).1 (h ▸ by simp)
        rcases hx with hx | hx <;> rcases hy with hy | hy <;>
          rcases hz with hz | hz <;> subst_vars <;> simp_all
    subst hrest
    rcases hx with hx | hx
    · rcases hy with hy | hy
      · exact absurd (hx.trans hy.symm) hxy
      · subst_vars; exact Or.inl rfl
    · rcases hy with hy | hy
      · subst_vars; exact Or.inr rfl
      · exact absurd (hx.trans hy.symm) hxy

theorem insertAsc_pair_le {x y : String} (h : strLe x y = true) :
    insertAsc x [y] = [x, y] := by
  rw [insertAsc, if_pos h]

theorem insertAsc_pair_gt {x y : String} (h : strLe x y = false) :
    insertAsc x [y] = [y, x] := by
  rw [insertAsc, if_neg (by rw [h]; exact Bool.false_ne_true)]
  rfl

theorem sortStrings_pair {a b : String} (hab : strLt a b = true) :
    sortStrings [a, b] = [a, b] ∧ sortStrings [b, a] = [a, b] := by
  have hle : strLe a b = true := by unfold strLe; rw [strLt_asymm hab]; rfl
  have hnle : strLe b a = false := by unfold strLe; rw [hab]; rfl
  constructor
  · show insertAsc a (insertAsc b []) = [a, b]
    rw [show insertAsc b [] = [b] from rfl, insertAsc_pair_le hle]
  · show insertAsc b (insertAsc a []) = [a, b]
    rw [show insertAsc a [] = [a] from rfl, insertAsc_pair_gt hnle]

/-! ### Characterizing the three mapping tiers of `_map_binary_series` -/

theorem map_congr_mem {α β : Type _} {f g : α → β} :
    ∀ l : List α, (∀ a ∈ l, f a = g a) → l.map f = l.map g := by
  intro l
  induction l with
  | nil => intro _; rfl
  | cons x xs ih =>
    intro h
    simp only [List.map_cons]
    rw [h x (by simp), ih (fun a ha => h a (List.mem_cons_of_mem _ ha))]

theorem setEqPair_congr {l₁ l₂ : List String} {a b : String}
    (h : ∀ x, x ∈ l₁ ↔ x ∈ l₂) : setEqPair l₁ a b ↔ setEqPair l₂ a b := by
  unfold setEqPair
  constructor
  · rintro ⟨ha, hb, hcov⟩
    exact ⟨(h a).mp ha, (h b).mp hb, fun x hx => hcov x ((h x).mpr hx)⟩
  · rintro ⟨ha, hb, hcov⟩
    exact ⟨(h a).mpr ha, (h b).mpr hb, fun x hx => hcov x ((h x).mp hx)⟩

theorem mem_valsOf {s : List SVal} {x : String} :
    x ∈ valsOf s ↔ some x ∈ s := by
  unfold valsOf
  rw [mem_uniq, List.mem_filterMap]
  constructor
  · rintro ⟨v, hv, he⟩; cases v with
    | none => cases he
    | some y => cases he; exact hv
  · intro hv; exact ⟨some x, hv, rfl⟩

theorem valsOf_perm {s s' : List SVal} (h : s'.Perm s) :
    ∀ x, x ∈ valsOf s' ↔ x ∈ valsOf s := by
  intro x
  rw [mem_valsOf, mem_valsOf]
  exact h.mem_iff

/-- Tier 1: value set exactly `{"Yes", "No"}`. -/
theorem mapBinary_yesNo {s : List SVal}
    (h : setEqPair (valsOf s) "Yes" "No") :
    mapBinarySeries s = .inl (seriesMap yesNoMap s) := by
  unfold mapBinarySeries
  rw [if_pos h]

theorem genericMap_pair (a b : String) : genericMap [a, b] = pairCode a b := by
  funext x
  simp [genericMap, pairCode, List.getD]

/-- Tier 3 (generic): a two-element value set `{a, b}` with `a < b` that
is neither `{"Yes","No"}` nor `{"Male","Female"}` is encoded by
`pairCode a b`, a function of the value set only. -/
theorem mapBinary_generic {s : List SVal} {a b : String}
    (hab : strLt a b = true)
    (hset : setEqPair (valsOf s) a b)
    (hYN : ¬ (a = "No" ∧ b = "Yes"))
    (hMF : ¬ (a = "Female" ∧ b = "Male")) :
    mapBinarySeries s = .inl (seriesMap (pairCode a b) s) := by
  have hne : a ≠ b := ne_of_strLt hab
  have hnd : (valsOf s).Nodup := nodup_uniq _
  have hchar := nodup_pair_char hnd hne hset
  -- the first two tier guards are false
  have hg1 : ¬ setEqPair (valsOf s) "Yes" "No" := by
    rintro ⟨hY, hN, hcov⟩
    have ha := hset.1
    have hb := hset.2.1
    rcases hcov a ha with ha' | ha' <;> rcases hcov b hb with hb' | hb'
    · exact hne (ha'.trans hb'.symm)
    · -- a = "Yes", b = "No" contradicts a < b since "No" < "Yes"
      subst ha'; subst hb'
      exact absurd hab (by decide)
    · exact hYN ⟨ha', hb'⟩
    · exact hne (ha'.trans hb'.symm)
  have hg2 : ¬ setEqPair (valsOf s) "Male" "Female" := by
    rintro ⟨hM, hF, hcov⟩
    have ha := hset.1
    have hb := hset.2.1
    rcases hcov a ha with ha' | ha' <;> rcases hcov b hb with hb' | hb'
    · exact hne (ha'.trans hb'.symm)
    · -- a = "Male", b = "Female" contradicts a < b since "Female" < "Male"
      subst ha'; subst hb'
      exact absurd hab (by decide)
    · exact hMF ⟨ha', hb'⟩
    · exact hne (ha'.trans hb'.symm)
  have hlen : (valsOf s).length = 2 := by
    rcases hchar with h | h <;> rw [h] <;> rfl
  have hsorted : sortStrings (valsOf s) = [a, b] := by
    rcases hchar with h | h <;> rw [h]
    · exact (sortStrings_pair hab).1
    · exact (sortStrings_pair hab).2
  unfold mapBinarySeries
  rw [if_neg hg1, if_neg hg2, if_pos hlen, hsorted, genericMap_pair]

/-- Every value of a series is covered by its value set. -/
theorem mem_of_some_mem {s : List SVal} {x : String}
    (hx : some x ∈ s) : x ∈ valsOf s := mem_valsOf.mpr hx

/-- C1 counterpart helper: the claim-side description of the encoded
series, `s.map (·.bind (pairCode a b))`, is exactly `seriesMap`. -/
theorem seriesMap_eq_map (m : String → Option Int) (s : List SVal) :
    seriesMap m s = s.map (fun v => v.bind m) := rfl

/-- C1: for a two-valued value set `{a, b}` (`a < b`, after string
normalization) matching neither `{"Yes","No"}` nor `{"Male","Female"}`,
binary encoding maps the lexicographically larger value `b` to 1 and the
smaller `a` to 0; the resulting assignment is the pure function
`pairCode a b` of the value set only, so encoding any row-permutation
`s'` of the same column applies the identical per-row code. -/
theorem binary_encoding_generic_tier_pure (s s' : List SVal) (a b : String)
    (hab : strLt a b = true)
    (hset : setEqPair (valsOf s) a b)
    (hYN : ¬ (a = "No" ∧ b = "Yes"))
    (hMF : ¬ (a = "Female" ∧ b = "Male"))
    (hperm : s'.Perm s) :
    mapBinarySeries s = .inl (s.map (fun v => v.bind (pairCode a b))) ∧
    mapBinarySeries s' = .inl (s'.map (fun v => v.bind (pairCode a b))) := by
  have hset' : setEqPair (valsOf s') a b :=
    (setEqPair_congr (valsOf_perm hperm)).mpr hset
  exact ⟨mapBinary_generic hab hset hYN hMF,
         mapBinary_generic hab hset' hYN hMF⟩

theorem binary_encoding_generic_tier_pure_witness :
    (strLt "DSL" "Fiber optic" = true ∧
      setEqPair (valsOf [some "DSL", some "Fiber optic", none]) "DSL" "Fiber optic" ∧
      List.Perm [none, some "Fiber optic", some "DSL"]
        [some "DSL", some "Fiber optic", none]) ∧
    mapBinarySeries [some "DSL", some "Fiber optic", none] =
      .inl [some 0, some 1, none] ∧
    mapBinarySeries [none, some "Fiber optic", some "DSL"] =
      .inl [none, some 1, some 0] := by
  refine ⟨by decide, ?_, ?_⟩
  · have h := binary_encoding_generic_tier_pure
      [some "DSL", some "Fiber optic", none]
      [none, some "Fiber optic", some "DSL"]
      "DSL" "Fiber optic" (by decide) (by decide) (by decide) (by decide) (by decide)
    exact h.1.trans (by decide)
  · have h := binary_encoding_generic_tier_pure
      [some "DSL", some "Fiber optic", none]
      [none, some "Fiber optic", some "DSL"]
      "DSL" "Fiber optic" (by decide) (by decide) (by decide) (by decide) (by decide)
    exact h.2.trans (by decide)

/-- C2 counterexample: the code performs no case/whitespace
normalization.  (a) On the capitalization variant `{"no", "YES"}` the
generic lexicographic tier fires and maps the *No*-variant to 1 and the
*Yes*-variant to 0 — the claim demands Yes→1/No→0 for every variant.
(b) Re-encoding an already-encoded column that contains a missing value
(stringified by the pipeline to `"<NA>"`, giving three distinct values)
returns the stringified column unchanged instead of the same encoding,
so idempotency also fails in the presence of missing values. -/
theorem yes_no_variant_counterexample :
    mapBinarySeries [some "no", some "YES"] = .inl [some 1, some 0] ∧
    mapBinarySeries (int64AstypeStr [some 1, some 0, none]) =
      .inr [some "1", some "0", some "<NA>"] := by
  constructor
  · decide
  · decide

/-- C2 amended: only the *exact* value set `{"Yes","No"}` triggers the
first tier, which maps Yes→1, No→0 pointwise (missing preserved) and is
a pure function of the value set — independent of row order and
frequency (any permutation `s'` encodes by the same per-row code).  For
such columns *without* missing values, re-encoding the stringified
encoded column (the composition the pipeline applies) returns the same
encoded values, so encoding is idempotent there.  Capitalization or
whitespace variants fall to the generic lexicographic tier instead
(see the counterexample), and a column with missing values re-encodes
to `"<NA>"` strings rather than idempotently. -/
theorem yes_no_exact_tier_idempotent (s s' : List SVal)
    (hset : setEqPair (valsOf s) "Yes" "No")
    (hperm : s'.Perm s) :
    mapBinarySeries s = .inl (s.map (fun v => v.bind yesNoMap)) ∧
    mapBinarySeries s' = .inl (s'.map (fun v => v.bind yesNoMap)) ∧
    (none ∉ s →
      mapBinarySeries (int64AstypeStr (s.map (fun v => v.bind yesNoMap))) =
        .inl (s.map (fun v => v.bind yesNoMap))) := by
  have hset' : setEqPair (valsOf s') "Yes" "No" :=
    (setEqPair_congr (valsOf_perm hperm)).mpr hset
  refine ⟨mapBinary_yesNo hset, mapBinary_yesNo hset', ?_⟩
  intro hnone
  -- every cell is `some "Yes"` or `some "No"`
  have hcov : ∀ v ∈ s, v = some "Yes" ∨ v = some "No" := by
    intro v hv
    cases v with
    | none => exact absurd hv hnone
    | some x =>
      rcases hset.2.2 x (mem_valsOf.mpr hv) with h | h
      · exact Or.inl (by rw [h])
      · exact Or.inr (by rw [h])
  have hYes : some "Yes" ∈ s := mem_valsOf.mp hset.1
  have hNo : some "No" ∈ s := mem_valsOf.mp hset.2.1
  set e := s.map (fun v => v.bind yesNoMap) with he
  set t := int64AstypeStr e with ht
  have ht' : t = s.map (fun v =>
      (match v.bind yesNoMap with
        | some n => some (toString n)
        | none => some "<NA>" : SVal)) := by
    rw [ht, he, int64AstypeStr, List.map_map]
    rfl
  have hFy : (fun v =>
      (match v.bind yesNoMap with
        | some n => some (toString n)
        | none => some "<NA>" : SVal)) (some "Yes") = some "1" := by decide
  have hFn : (fun v =>
      (match v.bind yesNoMap with
        | some n => some (toString n)
        | none => some "<NA>" : SVal)) (some "No") = some "0" := by decide
  -- the stringified encoded column has value set {"0", "1"}
  have hone : some "1" ∈ t := by
    rw [ht', ← hFy]
    exact List.mem_map_of_mem _ hYes
  have hzero : some "0" ∈ t := by
    rw [ht', ← hFn]
    exact List.mem_map_of_mem _ hNo
  have hcovt' : ∀ w ∈ t, w = some "1" ∨ w = some "0" := by
    rw [ht']
    intro w hw
    rcases List.mem_map.mp hw with ⟨v, hv, hvw⟩
    rcases hcov v hv with h | h <;> subst h <;> subst hvw
    · exact Or.inl hFy
    · exact Or.inr hFn
  have hcovt : ∀ x, x ∈ valsOf t → x = "0" ∨ x = "1" := by
    intro x hx
    rcases hcovt' (some x) (mem_valsOf.mp hx) with h | h
    · exact Or.inr (Option.some.inj h)
    · exact Or.inl (Option.some.inj h)
  have hsett : setEqPair (valsOf t) "0" "1" :=
    ⟨mem_valsOf.mpr hzero, mem_valsOf.mpr hone, hcovt⟩
  have hgen := mapBinary_generic (a := "0") (b := "1") (by decide) hsett
    (by decide) (by decide)
  rw [hgen]
  congr 1
  -- seriesMap (pairCode "0" "1") t = e
  show t.map (fun v => v.bind (pairCode "0" "1")) = e
  rw [ht', List.map_map, he]
  apply map_congr_mem
  intro v hv
  rcases hcov v hv with h | h <;> subst h <;> decide

/-- Witness for the amended C2 theorem at a concrete Yes/No column. -/
theorem yes_no_exact_tier_idempotent_witness :
    (setEqPair (valsOf [some "Yes", some "No", some "Yes"]) "Yes" "No" ∧
      List.Perm [some "No", some "Yes", some "Yes"]
        [some "Yes", some "No", some "Yes"]) ∧
    mapBinarySeries [some "Yes", some "No", some "Yes"] =
      .inl [some 1, some 0, some 1] ∧
    mapBinarySeries [some "No", some "Yes", some "Yes"] =
      .inl [some 0, some 1, some 1] ∧
    mapBinarySeries (int64AstypeStr [some 1, some 0, some 1]) =
      .inl [some 1, some 0, some 1] := by
  have h := yes_no_exact_tier_idempotent
    [some "Yes", some "No", some "Yes"]
    [some "No", some "Yes", some "Yes"]
    (by decide) (by decide)
  refine ⟨by decide, h.1.trans (by decide), h.2.1.trans (by decide), ?_⟩
  have h3 := h.2.2 (by decide)
  exact (by decide : int64AstypeStr [some 1, some 0, some 1] =
    int64AstypeStr ([some "Yes", some "No", some "Yes"].map
      (fun v => v.bind yesNoMap))) ▸ (h3.trans (by decide))

/-! ### C7: idempotency of the dtype-normalization step -/

theorem fillZeroCell_idem (v : CVal) : fillZeroCell (fillZeroCell v) = fillZeroCell v := by
  cases v <;> rfl

theorem boolColFn_dtype_ne_bool (c : Column) : (boolColFn c).dtype ≠ .boolDt := by
  unfold boolColFn
  split
  · simp
  · next h => exact h

theorem fillColFn_dtype_ne_bool {c : Column} (bn : List String)
    (h : c.dtype ≠ .boolDt) : (fillColFn bn c).dtype ≠ .boolDt := by
  unfold fillColFn
  split
  · simp
  · exact h

theorem fillColFn_idem (bn : List String) (c : Column) :
    fillColFn bn (fillColFn bn c) = fillColFn bn c := by
  unfold fillColFn
  split
  · next h =>
    have hcond : ((⟨c.name, .nullableInt, c.values.map fillZeroCell⟩ : Column).name ∈ bn ∧
        isIntegerDtype (⟨c.name, .nullableInt, c.values.map fillZeroCell⟩ : Column).dtype) :=
      ⟨h.1, Or.inr rfl⟩
    rw [if_pos hcond]
    simp only [Column.mk.injEq, true_and]
    rw [List.map_map]
    apply map_congr_mem
    intro v _
    exact fillZeroCell_idem v
  · rfl

theorem boolColFn_of_ne_bool {c : Column} (h : c.dtype ≠ .boolDt) :
    boolColFn c = c := by
  unfold boolColFn
  rw [if_neg h]

/-- C7: the dtype-normalization step (bool columns to `Int64`, then
`fillna(0).astype("Int64")` on the integer-dtyped binary columns) is
idempotent: applying it twice to any frame with any binary-column list
equals applying it once. -/
theorem dtype_normalization_idempotent (df : DataFrame) (binNames : List String) :
    dtypeNormalize (dtypeNormalize df binNames) binNames = dtypeNormalize df binNames := by
  unfold dtypeNormalize fillStep boolStep
  apply congrArg DataFrame.mk
  simp only [List.map_map]
  apply map_congr_mem
  intro c _
  simp only [Function.comp_apply]
  have h1 : (fillColFn binNames (boolColFn c)).dtype ≠ .boolDt :=
    fillColFn_dtype_ne_bool binNames (boolColFn_dtype_ne_bool c)
  rw [boolColFn_of_ne_bool h1, fillColFn_idem]

/-! ### Tracing one column through the pipeline -/

theorem mapBinarySeries_inr_eq {s t : List SVal}
    (h : mapBinarySeries s = .inr t) : t = s := by
  unfold mapBinarySeries at h
  split at h
  · cases h
  · split at h
    · cases h
    · split at h
      · cases h
      · exact (Sum.inr.inj h).symm

/-- If every cell of the input series is non-missing (always true for
the `astype(str)`-stringified series the pipeline passes in), then a
mapped output contains no missing marker: each mapping tier's dict
covers the whole value set. -/
theorem mapBinary_inl_no_none {s : List SVal} {o : List (Option Int)}
    (hs : (none : SVal) ∉ s) (h : mapBinarySeries s = .inl o) :
    (none : Option Int) ∉ o := by
  unfold mapBinarySeries at h
  split at h
  · next hg =>
    rw [← Sum.inl.inj h]
    intro hmem
    rcases List.mem_map.mp hmem with ⟨v, hv, hvn⟩
    cases v with
    | none => exact hs hv
    | some y =>
      rcases hg.2.2 y (mem_valsOf.mpr hv) with hy | hy <;> subst hy <;>
        simp [yesNoMap] at hvn
  · split at h
    · next hg =>
      rw [← Sum.inl.inj h]
      intro hmem
      rcases List.mem_map.mp hmem with ⟨v, hv, hvn⟩
      cases v with
      | none => exact hs hv
      | some y =>
        rcases hg.2.2 y (mem_valsOf.mpr hv) with hy | hy <;> subst hy <;>
          simp [maleFemaleMap] at hvn
    · split at h
      · next hlen =>
        rw [← Sum.inl.inj h]
        intro hmem
        rcases List.mem_map.mp hmem with ⟨v, hv, hvn⟩
        cases v with
        | none => exact hs hv
        | some y =>
          have hy : y ∈ sortStrings (valsOf s) :=
            (mem_sortStrings _).mpr (mem_valsOf.mpr hv)
          have hvn' : genericMap (sortStrings (valsOf s)) y = none := hvn
          have hlen' : (sortStrings (valsOf s)).length = 2 := by
            rw [length_sortStrings, hlen]
          match hsv : sortStrings (valsOf s), hlen' with
          | [z0, z1], _ =>
            rw [hsv] at hy hvn'
            rcases List.mem_cons.mp hy with hy | hy
            · subst hy
              unfold genericMap at hvn'
              split at hvn'
              · cases hvn'
              · rw [if_pos (by simp [List.getD])] at hvn'
                cases hvn'
            · rcases List.mem_singleton.mp hy with rfl
              unfold genericMap at hvn'
              rw [if_pos (by simp [List.getD])] at hvn'
              cases hvn'
      · cases h

theorem binEncodeColumn_name (c : Column) : (binEncodeColumn c).name = c.name := by
  unfold binEncodeColumn
  split <;> rfl

theorem boolColFn_name (c : Column) : (boolColFn c).name = c.name := by
  unfold boolColFn
  split <;> rfl

theorem fillColFn_name (bn : List String) (c : Column) :
    (fillColFn bn c).name = c.name := by
  unfold fillColFn
  split <;> rfl

/-- With unique labels, two columns of one frame sharing a label are
the same column. -/
theorem eq_of_name_eq_nodup :
    ∀ {l : List Column}, (l.map Column.name).Nodup →
      ∀ {c c' : Column}, c ∈ l → c' ∈ l → c.name = c'.name → c = c' := by
  intro l
  induction l with
  | nil => intro _ c c' hc; cases hc
  | cons x xs ih =>
    intro hnd c c' hc hc' hname
    rw [List.map_cons, List.nodup_cons] at hnd
    rcases List.mem_cons.mp hc with h1 | h1 <;>
      rcases List.mem_cons.mp hc' with h2 | h2
    · rw [h1, h2]
    · exfalso
      apply hnd.1
      rw [← h1, hname]
      exact List.mem_map_of_mem Column.name h2
    · exfalso
      apply hnd.1
      rw [← h2, ← hname]
      exact List.mem_map_of_mem Column.name h1
    · exact ih hnd.2 h1 h2 hname

/-- A `find?`-by-label lookup over a name-preserving image of a frame with
unique labels finds the image of the column. -/
theorem find_map_of_nodup {f : Column → Column}
    (hf : ∀ x, (f x).name = x.name) :
    ∀ {l : List Column}, (l.map Column.name).Nodup →
      ∀ {c : Column}, c ∈ l →
        (l.map f).find? (fun d => decide (d.name = c.name)) = some (f c) := by
  intro l
  induction l with
  | nil => intro _ c hc; cases hc
  | cons x xs ih =>
    intro hnd c hc
    rw [List.map_cons, List.nodup_cons] at hnd
    rcases List.mem_cons.mp hc with rfl | hc
    · rw [List.map_cons, List.find?_cons_of_pos]
      simp [hf]
    · rw [List.map_cons, List.find?_cons_of_neg, ih hnd.2 hc]
      simp only [hf, decide_eq_true_eq]
      intro heq
      exact hnd.1 (heq ▸ List.mem_map_of_mem Column.name hc)

theorem concatMap_append (f : α → List β) :
    ∀ l₁ l₂ : List α, concatMap f (l₁ ++ l₂) = concatMap f l₁ ++ concatMap f l₂ := by
  intro l₁ l₂
  induction l₁ with
  | nil => rfl
  | cons x xs ih => simp [concatMap, ih]

/-- Keeping a non-expanded column through STEP 5. -/
theorem mem_dummiesStep_of_not_listed {d : DataFrame} {c : Column}
    {names : List String} (hc : c ∈ d.cols) (hn : c.name ∉ names) :
    c ∈ (dummiesStep d names).cols := by
  unfold dummiesStep
  split
  · exact hc
  · exact List.mem_append_left _ (List.mem_filter.mpr ⟨hc, by simpa using hn⟩)

/-- The map-based steps preserve membership pointwise. -/
theorem mem_map_step {l : List Column} {c : Column} (f : Column → Column)
    (hc : c ∈ l) (hfix : f c = c) : c ∈ l.map f := by
  rw [← hfix]
  exact List.mem_map_of_mem f hc

/-- The target name never classifies as a binary column. -/
theorem target_not_mem_binaryCols (df : DataFrame) (target : String) :
    target ∉ binaryColsOf df target := by
  unfold binaryColsOf
  intro hmem
  rcases List.mem_map.mp hmem with ⟨c, hc, hname⟩
  have hp : binaryPred target c := of_decide_eq_true (List.mem_filter.mp hc).2
  exact hp.2.1 hname

/-- The target name never classifies as a multi-category column. -/
theorem target_not_mem_multiCols (df : DataFrame) (target : String) :
    target ∉ multiCatColsOf df target := by
  unfold multiCatColsOf
  intro hmem
  rcases List.mem_map.mp hmem with ⟨c, hc, hname⟩
  have hp : multiPred target c := of_decide_eq_true (List.mem_filter.mp hc).2
  exact hp.2.1 hname

theorem not_integer_object : ¬ isIntegerDtype .object := by
  rintro (h | h) <;> cases h

theorem not_integer_bool : ¬ isIntegerDtype .boolDt := by
  rintro (h | h) <;> cases h

theorem fillZeroCell_of_ne_na {v : CVal} (h : v ≠ .na) : fillZeroCell v = v := by
  cases v <;> first | rfl | exact absurd rfl h

theorem map_fillZero_of_no_na : ∀ {l : List CVal}, CVal.na ∉ l → l.map fillZeroCell = l := by
  intro l h
  induction l with
  | nil => rfl
  | cons x xs ih =>
    rw [List.map_cons,
      fillZeroCell_of_ne_na (fun he => h (by rw [← he]; exact List.mem_cons_self x xs)),
      ih (fun hm => h (List.mem_cons_of_mem x hm))]

theorem binary_not_multi {df : DataFrame} {target : String} {c : Column}
    (hnd : (df.cols.map Column.name).Nodup)
    (hc : c ∈ df.cols) (hbin : binaryPred target c) :
    c.name ∉ multiCatColsOf df target := by
  intro hmem
  unfold multiCatColsOf at hmem
  rcases List.mem_map.mp hmem with ⟨c₂, hc₂, hname⟩
  have hp : multiPred target c₂ := of_decide_eq_true (List.mem_filter.mp hc₂).2
  have heq : c₂ = c :=
    eq_of_name_eq_nodup hnd (List.mem_filter.mp hc₂).1 hc hname
  rw [heq] at hp
  have h22 := hp.2.2
  rw [hbin.2.2] at h22
  exact absurd h22 (lt_irrefl 2)

theorem mem_binaryColsOf {df : DataFrame} {target : String} {c : Column}
    (hc : c ∈ df.cols) (hbin : binaryPred target c) :
    c.name ∈ binaryColsOf df target := by
  unfold binaryColsOf
  exact List.mem_map_of_mem Column.name
    (List.mem_filter.mpr ⟨hc, decide_eq_true hbin⟩)

/-- A column that survives STEP 3 with non-bool dtype, is not listed
for expansion, and is a fixed point of STEP 6 appears in the
`buildFeatures` output. -/
theorem mem_buildFeatures_trace {df : DataFrame} {target : String} {e : Column}
    (h1 : e ∈ (binaryEncodeStep df target).cols)
    (hdt : e.dtype ≠ .boolDt)
    (hnm : e.name ∉ multiCatColsOf df target)
    (hfix : fillColFn (binaryColsOf df target) e = e) :
    e ∈ (buildFeatures df target).cols := by
  unfold buildFeatures
  have h2 : e ∈ (boolStep (binaryEncodeStep df target)).cols :=
    mem_map_step boolColFn h1 (boolColFn_of_ne_bool hdt)
  have h3 := mem_dummiesStep_of_not_listed h2 hnm
  exact mem_map_step _ h3 hfix

/-- C3 counterexample: after `astype(str)` the normalized value set of
the column is `{"Yes","No","nan"}` — three members — so the column is
classified binary but left unmapped *in place*: it is **not** routed to
multi-category handling (`multi_cat_cols` is empty and no indicator
columns appear) and the run returns normally instead of failing.  The
claim's required disjunction (route to multi-category handling or fail
loudly) is therefore false, although no partially-null column arises. -/
theorem ambiguous_binary_left_in_place_counterexample :
    binaryColsOf dfYesNoMissing "Churn" = ["Partner"] ∧
    multiCatColsOf dfYesNoMissing "Churn" = [] ∧
    buildFeatures dfYesNoMissing "Churn" =
      ⟨[⟨"Partner", .object, [.str "Yes", .str "No", .str "nan"]⟩]⟩ := by
  refine ⟨by decide, by decide, by decide⟩

/-- C3 amended: the encoding step never produces a partially-null
column.  A column classified binary is never routed to multi-category
handling, and its descendant in the output is either (a) the stringified
original left unmapped in place (when the stringified value set does
not trigger a mapping tier) — containing no missing marker at all — or
(b) a fully mapped `Int64` column with no missing values (every mapping
tier's dict covers the whole stringified value set).  The run never
fails (`buildFeatures` is total on this path, as is the Python code). -/
theorem binary_encode_no_partial_null (df : DataFrame) (target : String) (c : Column)
    (hnd : (df.cols.map Column.name).Nodup)
    (hc : c ∈ df.cols)
    (hbin : binaryPred target c) :
    c.name ∉ multiCatColsOf df target ∧
    ∃ c' ∈ (buildFeatures df target).cols, c'.name = c.name ∧
      (c' = ⟨c.name, .object, c.values.map (fun v => CVal.str (astypeStr v))⟩
       ∨ (c'.dtype = .nullableInt ∧ CVal.na ∉ c'.values)) := by
  have hnotmulti := binary_not_multi hnd hc hbin
  refine ⟨hnotmulti, ?_⟩
  have h1 : binEncodeColumn c ∈ (binaryEncodeStep df target).cols := by
    unfold binaryEncodeStep
    have hfc : (fun x => if binaryPred target x then binEncodeColumn x else x) c =
        binEncodeColumn c := if_pos hbin
    rw [← hfc]
    exact List.mem_map_of_mem _ hc
  have hsome : (none : SVal) ∉ c.values.map svalOfCell := by
    intro hmem
    rcases List.mem_map.mp hmem with ⟨v, _, hv⟩
    simp [svalOfCell] at hv
  cases hm : mapBinarySeries (c.values.map svalOfCell) with
  | inr t =>
    have ht := mapBinarySeries_inr_eq hm
    have he2 : binEncodeColumn c =
        ⟨c.name, .object, c.values.map (fun v => CVal.str (astypeStr v))⟩ := by
      unfold binEncodeColumn
      rw [hm]
      show (⟨c.name, .object, t.map cellOfSVal⟩ : Column) = _
      rw [ht, List.map_map]
      rfl
    refine ⟨binEncodeColumn c, ?_, binEncodeColumn_name c, Or.inl he2⟩
    apply mem_buildFeatures_trace h1
    · rw [he2]; intro hcon; cases hcon
    · rw [binEncodeColumn_name]; exact hnotmulti
    · unfold fillColFn
      rw [if_neg]
      rintro ⟨-, hint⟩
      rw [he2] at hint
      exact not_integer_object hint
  | inl o =>
    have hno : (none : Option Int) ∉ o := mapBinary_inl_no_none hsome hm
    have he2 : binEncodeColumn c = ⟨c.name, .nullableInt, o.map intCellOf⟩ := by
      unfold binEncodeColumn
      rw [hm]
    have hnona : CVal.na ∉ o.map intCellOf := by
      intro hmem
      rcases List.mem_map.mp hmem with ⟨y, hy, hyv⟩
      cases y with
      | none => exact hno hy
      | some n => cases hyv
    refine ⟨binEncodeColumn c, ?_, binEncodeColumn_name c,
      Or.inr ⟨by rw [he2], by rw [he2]; exact hnona⟩⟩
    apply mem_buildFeatures_trace h1
    · rw [he2]; intro hcon; cases hcon
    · rw [binEncodeColumn_name]; exact hnotmulti
    · rw [he2]
      unfold fillColFn
      split
      · dsimp only
        simp only [Column.mk.injEq, true_and]
        exact map_fillZero_of_no_na hnona
      · rfl

/-- Witness for the amended C3 theorem: a clean Yes/No column maps to a
fully non-null `Int64` column. -/
theorem binary_encode_no_partial_null_witness :
    ((((⟨[⟨"Dependents", .object, [.str "Yes", .str "No"]⟩]⟩ :
        DataFrame).cols.map Column.name).Nodup ∧
      (⟨"Dependents", .object, [.str "Yes", .str "No"]⟩ : Column) ∈
        (⟨[⟨"Dependents", .object, [.str "Yes", .str "No"]⟩]⟩ : DataFrame).cols ∧
      binaryPred "Churn" ⟨"Dependents", .object, [.str "Yes", .str "No"]⟩) ∧
     ("Dependents" ∉ multiCatColsOf
        ⟨[⟨"Dependents", .object, [.str "Yes", .str "No"]⟩]⟩ "Churn" ∧
      ∃ c' ∈ (buildFeatures
          ⟨[⟨"Dependents", .object, [.str "Yes", .str "No"]⟩]⟩ "Churn").cols,
        c'.name = "Dependents" ∧
        (c' = ⟨"Dependents", .object,
            [.str "Yes", .str "No"].map (fun v => CVal.str (astypeStr v))⟩
         ∨ (c'.dtype = .nullableInt ∧ CVal.na ∉ c'.values)))) ∧
    buildFeatures ⟨[⟨"Dependents", .object, [.str "Yes", .str "No"]⟩]⟩ "Churn" =
      ⟨[⟨"Dependents", .nullableInt, [.int 1, .int 0]⟩]⟩ := by
  refine ⟨⟨by decide, ?_⟩, by decide⟩
  exact binary_encode_no_partial_null
    ⟨[⟨"Dependents", .object, [.str "Yes", .str "No"]⟩]⟩ "Churn"
    ⟨"Dependents", .object, [.str "Yes", .str "No"]⟩
    (by decide) (by decide) (by decide)

/-- C4 (code bug): `build_features` stringifies the column before
mapping, turning the missing cell into the string `"nan"`, which the
generic tier then maps like any category: the missing input cell comes
out as `0` (`"nan"` sorts before `"zz"`), not as a preserved missing
value.  The spec's "missing values are preserved as missing (not
coerced to 0) after mapping" is violated. -/
theorem missing_coerced_to_zero_eval :
    dfMissingBinary.cols.map Column.values = [[.str "zz", .str "nan", CVal.na]] ∧
    buildFeatures dfMissingBinary "Churn" =
      ⟨[⟨"Partner", .nullableInt, [.int 1, .int 0, .int 0]⟩]⟩ := by
  refine ⟨by decide, by decide⟩

/-- C6 counterexample: STEP 4 (`df[bool_cols].astype("Int64")`) does not
exclude the target, so a bool-dtyped target column does *not* appear
unchanged in the output — its dtype and values are converted. -/
theorem bool_target_changed_counterexample :
    buildFeatures dfBoolTarget "Churn" =
      ⟨[⟨"Churn", .nullableInt, [.int 1, .int 0]⟩]⟩ ∧
    (⟨"Churn", .boolDt, [.bool true, .bool false]⟩ : Column) ∉
      (buildFeatures dfBoolTarget "Churn").cols := by
  refine ⟨by decide, by decide⟩

/-- C6 amended: the target column is excluded from the categorical
classification (it is never in `binary_cols` nor `multi_cat_cols`, so
it is never binary-encoded and never one-hot expanded), and provided
its dtype is not bool it appears unchanged in the output; a bool-dtyped
target is converted to `Int64` by the boolean-conversion step, which
does not exclude the target (see the counterexample). -/
theorem target_excluded_and_unchanged (df : DataFrame) (target : String) (t : Column)
    (ht : t ∈ df.cols) (hname : t.name = target) (hdt : t.dtype ≠ .boolDt) :
    t ∈ (buildFeatures df target).cols ∧
    target ∉ binaryColsOf df target ∧
    target ∉ multiCatColsOf df target := by
  have hnb : ¬ binaryPred target t := fun h => h.2.1 hname
  refine ⟨?_, target_not_mem_binaryCols df target, target_not_mem_multiCols df target⟩
  have h1 : t ∈ (binaryEncodeStep df target).cols := by
    unfold binaryEncodeStep
    exact mem_map_step _ ht (if_neg hnb)
  apply mem_buildFeatures_trace h1 hdt
  · rw [hname]; exact target_not_mem_multiCols df target
  · unfold fillColFn
    rw [if_neg]
    rintro ⟨hmem, -⟩
    rw [hname] at hmem
    exact target_not_mem_binaryCols df target hmem

/-- Witness for the amended C6 theorem: an object-dtyped target passes
through untouched. -/
theorem target_excluded_and_unchanged_witness :
    (((⟨"Churn", .object, [.str "Yes", .str "No"]⟩ : Column) ∈
        (⟨[⟨"Churn", .object, [.str "Yes", .str "No"]⟩]⟩ : DataFrame).cols ∧
      (⟨"Churn", .object, [.str "Yes", .str "No"]⟩ : Column).dtype ≠ .boolDt) ∧
     ((⟨"Churn", .object, [.str "Yes", .str "No"]⟩ : Column) ∈
        (buildFeatures ⟨[⟨"Churn", .object, [.str "Yes", .str "No"]⟩]⟩ "Churn").cols ∧
      "Churn" ∉ binaryColsOf ⟨[⟨"Churn", .object, [.str "Yes", .str "No"]⟩]⟩ "Churn" ∧
      "Churn" ∉ multiCatColsOf ⟨[⟨"Churn", .object, [.str "Yes", .str "No"]⟩]⟩ "Churn")) ∧
    buildFeatures ⟨[⟨"Churn", .object, [.str "Yes", .str "No"]⟩]⟩ "Churn" =
      ⟨[⟨"Churn", .object, [.str "Yes", .str "No"]⟩]⟩ := by
  refine ⟨⟨by decide, ?_⟩, by decide⟩
  exact target_excluded_and_unchanged
    ⟨[⟨"Churn", .object, [.str "Yes", .str "No"]⟩]⟩ "Churn"
    ⟨"Churn", .object, [.str "Yes", .str "No"]⟩
    (by decide) rfl (by decide)

/-! ### C5: multi-category expansion -/

theorem mem_concatMap {f : α → List β} {x : β} :
    ∀ {l : List α}, x ∈ concatMap f l ↔ ∃ a ∈ l, x ∈ f a := by
  intro l
  induction l with
  | nil => simp [concatMap]
  | cons y ys ih =>
    simp only [concatMap, List.mem_append, ih, List.mem_cons]
    constructor
    · rintro (h | ⟨a, ha, hx⟩)
      · exact ⟨y, Or.inl rfl, h⟩
      · exact ⟨a, Or.inr ha, hx⟩
    · rintro ⟨a, ha | ha, hx⟩
      · exact Or.inl (ha ▸ hx)
      · exact Or.inr ⟨a, ha, hx⟩

theorem dummiesForCol_dtype {c d : Column} (hd : d ∈ dummiesForCol c) :
    d.dtype = .boolDt := by
  unfold dummiesForCol at hd
  rcases List.mem_map.mp hd with ⟨cat, _, hcat⟩
  rw [← hcat]

theorem dummySegment_dtype {df : DataFrame} {names : List String} {d : Column}
    (hd : d ∈ dummySegment df names) : d.dtype = .boolDt := by
  unfold dummySegment at hd
  rcases mem_concatMap.mp hd with ⟨n, _, hx⟩
  revert hx
  cases findCol df n with
  | none => intro hx; cases hx
  | some c => exact fun hx => dummiesForCol_dtype hx

theorem fillColFn_fixes_bool {bn : List String} {d : Column}
    (hd : d.dtype = .boolDt) : fillColFn bn d = d := by
  unfold fillColFn
  rw [if_neg]
  rintro ⟨-, hint⟩
  rw [hd] at hint
  exact not_integer_bool hint

theorem uniqAux_map_inj {f : α → β} [DecidableEq α] [DecidableEq β]
    (hinj : Function.Injective f) :
    ∀ (l : List α) (seen : List α),
      uniqAux (seen.map f) (l.map f) = (uniqAux seen l).map f := by
  intro l
  induction l with
  | nil => intro seen; rfl
  | cons x xs ih =>
    intro seen
    by_cases hx : x ∈ seen
    · rw [List.map_cons, uniqAux, if_pos (List.mem_map_of_mem f hx),
        uniqAux, if_pos hx, ih]
    · rw [List.map_cons, uniqAux, if_neg (fun hmem => ?_), uniqAux, if_neg hx,
        List.map_cons]
      · rw [show (f x :: seen.map f) = (x :: seen).map f from rfl, ih]
      · rcases List.mem_map.mp hmem with ⟨y, hy, hyx⟩
        exact hx (hinj hyx ▸ hy)

theorem uniq_map_inj {f : α → β} [DecidableEq α] [DecidableEq β]
    (hinj : Function.Injective f) (l : List α) :
    uniq (l.map f) = (uniq l).map f :=
  uniqAux_map_inj hinj l []

theorem filter_ne_na_eq_map_str :
    ∀ {l : List CVal}, (∀ v ∈ l, v = CVal.na ∨ ∃ s, v = CVal.str s) →
      l.filter (fun v => decide (v ≠ CVal.na)) = (l.filterMap cellStr).map CVal.str := by
  intro l h
  induction l with
  | nil => rfl
  | cons x xs ih =>
    have hx := h x (List.mem_cons_self x xs)
    have hxs := ih (fun v hv => h v (List.mem_cons_of_mem x hv))
    rcases hx with hx | ⟨s, hx⟩ <;> subst hx
    · show List.filter (fun v => decide (v ≠ CVal.na)) xs =
        List.map CVal.str (List.filterMap cellStr xs)
      exact hxs
    · show CVal.str s :: List.filter (fun v => decide (v ≠ CVal.na)) xs =
        CVal.str s :: List.map CVal.str (List.filterMap cellStr xs)
      rw [hxs]

/-- Under the object-column well-formedness assumption, the number of
`get_dummies` categories equals `nunique()`. -/
theorem categoriesOf_length {c : Column}
    (hstr : ∀ v ∈ c.values, v = CVal.na ∨ ∃ s, v = CVal.str s) :
    (categoriesOf c).length = nuniqueCol c := by
  unfold categoriesOf nuniqueCol
  rw [length_sortStrings, filter_ne_na_eq_map_str hstr,
    uniq_map_inj (fun a b h => CVal.str.inj h), List.length_map]

theorem dummiesForCol_facts {c d : Column} (hd : d ∈ dummiesForCol c) :
    ∃ cat ∈ categoriesOf c,
      d.name = c.name ++ "_" ++ cat ∧
      ∀ v ∈ d.values, v = CVal.bool true ∨ v = CVal.bool false := by
  unfold dummiesForCol at hd
  rcases List.mem_map.mp hd with ⟨cat, hcat, hform⟩
  refine ⟨cat, List.drop_subset 1 (categoriesOf c) hcat, by rw [← hform], ?_⟩
  intro v hv
  rw [← hform] at hv
  rcases List.mem_map.mp hv with ⟨w, _, hw⟩
  cases hdec : decide (w = CVal.str cat)
  · right; rw [← hw, hdec]
  · left; rw [← hw, hdec]

theorem mem_multiCatColsOf {df : DataFrame} {target : String} {c : Column}
    (hc : c ∈ df.cols) (hm : multiPred target c) :
    c.name ∈ multiCatColsOf df target := by
  unfold multiCatColsOf
  exact List.mem_map_of_mem Column.name
    (List.mem_filter.mpr ⟨hc, decide_eq_true hm⟩)

/-- C5: a MULTI column with `k` distinct non-missing categories
(`k > 2`) is removed from the frame by expansion, and exactly `k − 1`
indicator columns are added for it — a contiguous block `dummiesForCol c`
of the output — each named by concatenating the column name and a
category label and carrying only boolean 0/1 indicator values
(pandas renders the indicators as `True`/`False`; the pipeline's later
bool→int cast turns them into literal 1/0). -/
theorem multi_expansion_k_minus_one (df : DataFrame) (target : String)
    (c : Column) (k : Nat)
    (hnd : (df.cols.map Column.name).Nodup)
    (hc : c ∈ df.cols)
    (hm : multiPred target c)
    (hk : nuniqueCol c = k)
    (hstr : ∀ v ∈ c.values, v = CVal.na ∨ ∃ s, v = CVal.str s)
    (hfresh : ∀ d ∈ dummyColsOf df target, d.name ≠ c.name) :
    (∃ pre post, (buildFeatures df target).cols = pre ++ dummiesForCol c ++ post) ∧
    (dummiesForCol c).length = k - 1 ∧
    (∀ d ∈ dummiesForCol c, ∃ cat ∈ categoriesOf c,
        d.name = c.name ++ "_" ++ cat ∧
        ∀ v ∈ d.values, v = CVal.bool true ∨ v = CVal.bool false) ∧
    (∀ d ∈ (buildFeatures df target).cols, d.name ≠ c.name) := by
  have hcm : c.name ∈ multiCatColsOf df target := mem_multiCatColsOf hc hm
  have hmne : multiCatColsOf df target ≠ [] := by
    intro h
    rw [h] at hcm
    cases hcm
  -- the frame STEP 5 sees is a name-preserving image of `df` fixing `c`
  have hs2 : (boolStep (binaryEncodeStep df target)).cols =
      df.cols.map (fun x => boolColFn (if binaryPred target x then binEncodeColumn x else x)) := by
    show ((df.cols.map _).map boolColFn) = _
    rw [List.map_map]
    rfl
  have hgname : ∀ x : Column,
      ((fun x => boolColFn (if binaryPred target x then binEncodeColumn x else x)) x).name
        = x.name := by
    intro x
    rw [boolColFn_name]
    split
    · exact binEncodeColumn_name x
    · rfl
  have hgc : boolColFn (if binaryPred target c then binEncodeColumn c else c) = c := by
    have hnb : ¬ binaryPred target c := by
      intro hb
      have h22 := hm.2.2
      rw [hb.2.2] at h22
      exact absurd h22 (lt_irrefl 2)
    rw [if_neg hnb]
    exact boolColFn_of_ne_bool (by rw [hm.1]; intro hcon; cases hcon)
  have hfind : findCol (boolStep (binaryEncodeStep df target)) c.name = some c := by
    unfold findCol
    rw [hs2]
    have hfm := find_map_of_nodup hgname hnd hc
    rw [hgc] at hfm
    exact hfm
  -- split the expansion segment around `c`
  obtain ⟨l1, l2, hsplit⟩ := List.append_of_mem hcm
  have hseg : dummySegment (boolStep (binaryEncodeStep df target)) (multiCatColsOf df target)
      = dummySegment (boolStep (binaryEncodeStep df target)) l1 ++ dummiesForCol c
        ++ dummySegment (boolStep (binaryEncodeStep df target)) l2 := by
    conv =>
      lhs
      rw [hsplit]
    unfold dummySegment
    rw [show (l1 ++ c.name :: l2) = l1 ++ (c.name :: l2) from rfl, concatMap_append]
    rw [List.append_assoc]
    congr 1
    show concatMap _ (c.name :: l2) = _
    simp only [concatMap]
    rw [hfind]
  -- the output frame
  have hout : (buildFeatures df target).cols =
      ((boolStep (binaryEncodeStep df target)).cols.filter
          (fun x => decide (x.name ∉ multiCatColsOf df target))).map
        (fillColFn (binaryColsOf df target))
      ++ dummySegment (boolStep (binaryEncodeStep df target)) (multiCatColsOf df target) := by
    unfold buildFeatures dummiesStep fillStep
    rw [if_neg hmne]
    show (_ ++ dummySegment _ _).map (fillColFn _) = _
    rw [List.map_append]
    congr 1
    rw [show dummySegment (boolStep (binaryEncodeStep df target)) (multiCatColsOf df target)
        = (dummySegment (boolStep (binaryEncodeStep df target))
            (multiCatColsOf df target)).map id from (List.map_id _).symm]
    rw [List.map_map]
    apply map_congr_mem
    intro d hd
    show fillColFn _ (id d) = id d
    exact fillColFn_fixes_bool (dummySegment_dtype hd)
  refine ⟨?_, ?_, fun d hd => dummiesForCol_facts hd, ?_⟩
  · refine ⟨((boolStep (binaryEncodeStep df target)).cols.filter
        (fun x => decide (x.name ∉ multiCatColsOf df target))).map
          (fillColFn (binaryColsOf df target))
        ++ dummySegment (boolStep (binaryEncodeStep df target)) l1,
      dummySegment (boolStep (binaryEncodeStep df target)) l2, ?_⟩
    rw [hout, hseg]
    simp [List.append_assoc]
  · unfold dummiesForCol
    rw [List.length_map, List.length_drop, categoriesOf_length hstr, hk]
  · intro d hd
    rw [hout] at hd
    rcases List.mem_append.mp hd with hd | hd
    · rcases List.mem_map.mp hd with ⟨x, hx, hxd⟩
      have hxn : x.name ∉ multiCatColsOf df target := by
        have := (List.mem_filter.mp hx).2
        simpa using this
      rw [← hxd, fillColFn_name]
      intro heq
      exact hxn (heq ▸ hcm)
    · exact hfresh d hd

/-- Witness for C5 on the `Contract` column: `k = 3`, two indicator
columns `Contract_One year` / `Contract_Two year` are produced, the
reference category `Month-to-month` is dropped. -/
theorem multi_expansion_k_minus_one_witness :
    ((dfContract.cols.map Column.name).Nodup ∧ contractCol ∈ dfContract.cols ∧
      multiPred "Churn" contractCol ∧ nuniqueCol contractCol = 3 ∧
      (∀ d ∈ dummyColsOf dfContract "Churn", d.name ≠ contractCol.name)) ∧
    ((∃ pre post, (buildFeatures dfContract "Churn").cols =
        pre ++ dummiesForCol contractCol ++ post) ∧
     (dummiesForCol contractCol).length = 3 - 1 ∧
     (∀ d ∈ dummiesForCol contractCol, ∃ cat ∈ categoriesOf contractCol,
        d.name = contractCol.name ++ "_" ++ cat ∧
        ∀ v ∈ d.values, v = CVal.bool true ∨ v = CVal.bool false) ∧
     (∀ d ∈ (buildFeatures dfContract "Churn").cols, d.name ≠ contractCol.name)) ∧
    buildFeatures dfContract "Churn" =
      ⟨[⟨"Contract_One year", .boolDt, [.bool false, .bool true, .bool false]⟩,
        ⟨"Contract_Two year", .boolDt, [.bool false, .bool false, .bool true]⟩]⟩ := by
  refine ⟨by decide, ?_, by decide⟩
  apply multi_expansion_k_minus_one dfContract "Churn" contractCol 3
    (by decide) (by decide) (by decide) (by decide) ?_ (by decide)
  intro v hv
  have hv' : v = CVal.str "Month-to-month" ∨ v = CVal.str "One year" ∨
      v = CVal.str "Two year" := by
    simpa [contractCol] using hv
  rcases hv' with rfl | rfl | rfl
  · exact Or.inr ⟨"Month-to-month", rfl⟩
  · exact Or.inr ⟨"One year", rfl⟩
  · exact Or.inr ⟨"Two year", rfl⟩

/-- C8 counterexample: the blank coerces to missing at the `to_numeric`
step (a decimal like `"29.85"` parses to a number, so this is no parse
failure), but the final numeric NA-fill of `preprocess_data` replaces
the missing value with `0`, so the *preprocessed output* holds the
number 0, not a missing value as the claim states. -/
theorem blank_total_charges_zero_counterexample :
    toNumericCell (.str "") = CVal.na ∧
    toNumericCell (.str "29.85") ≠ CVal.na ∧
    preprocessData dfBlankCharges "Churn" =
      ⟨[⟨"TotalCharges", .float64, [.num 0]⟩]⟩ := by
  refine ⟨by decide, by decide, by decide⟩

theorem parseRat_of_blank {s : String} (h : strTrim s = "") : parseRat s = none := by
  unfold parseRat
  rw [h]
  rfl

theorem toNumericCell_of_blank {s : String} (h : strTrim s = "") :
    toNumericCell (.str s) = CVal.na := by
  show (match parseRat s with
    | some q => CVal.num q
    | none => CVal.na) = CVal.na
  rw [parseRat_of_blank h]

/-- C8 amended: a blank string in `TotalCharges` coerces to a missing
numeric value at the `to_numeric` step (not a parse failure and not a
number), and the subsequent blanket `fillna(0)` over numeric columns
then replaces it, so the cell in the *preprocessed output* is the
number 0 rather than missing. -/
theorem blank_total_charges_coercion (df : DataFrame) (targetCol : String)
    (c : Column) (i : Nat) (s : String)
    (hc : c ∈ df.cols)
    (hname : c.name = "TotalCharges")
    (htg : targetCol ≠ "TotalCharges")
    (hcell : c.values.get? i = some (.str s))
    (hblank : strTrim s = "") :
    toNumericCell (.str s) = CVal.na ∧
    ∃ c' ∈ (preprocessData df targetCol).cols,
      c'.name = "TotalCharges" ∧ c'.values.get? i = some (CVal.num 0) := by
  refine ⟨toNumericCell_of_blank hblank, ?_⟩
  have htrim : strTrim c.name = "TotalCharges" := by rw [hname]; decide
  -- the stripped column
  have h1 : (⟨strTrim c.name, c.dtype, c.values⟩ : Column) ∈
      df.cols.map (fun c => (⟨strTrim c.name, c.dtype, c.values⟩ : Column)) :=
    List.mem_map_of_mem _ hc
  have h2 : (⟨strTrim c.name, c.dtype, c.values⟩ : Column) ∈
      (df.cols.map (fun c => (⟨strTrim c.name, c.dtype, c.values⟩ : Column))).filter
        (fun x => decide (x.name ∉ idColNames)) := by
    apply List.mem_filter.mpr
    refine ⟨h1, ?_⟩
    rw [decide_eq_true_eq]
    show strTrim c.name ∉ idColNames
    rw [htrim]
    decide
  -- target step is a no-op here
  have h3fix : targetMapStep targetCol (⟨strTrim c.name, c.dtype, c.values⟩ : Column) =
      ⟨strTrim c.name, c.dtype, c.values⟩ := by
    unfold targetMapStep
    rw [if_neg]
    rintro ⟨hn, -⟩
    exact htg ((htrim ▸ hn).symm)
  -- TotalCharges step fires
  have h4 : totalChargesStep (⟨strTrim c.name, c.dtype, c.values⟩ : Column) =
      ⟨"TotalCharges", .float64, c.values.map toNumericCell⟩ := by
    unfold totalChargesStep
    rw [if_pos htrim]
    rw [htrim]
  -- SeniorCitizen step is a no-op
  have h5fix : seniorStep (⟨"TotalCharges", .float64, c.values.map toNumericCell⟩ : Column) =
      ⟨"TotalCharges", .float64, c.values.map toNumericCell⟩ := by
    unfold seniorStep
    rw [if_neg]
    intro hn
    exact (by decide : ("TotalCharges" : String) ≠ "SeniorCitizen") hn
  -- numeric fill fires
  have h6 : numericFillStep (⟨"TotalCharges", .float64, c.values.map toNumericCell⟩ : Column) =
      ⟨"TotalCharges", .float64,
        (c.values.map toNumericCell).map (numericFillCell .float64)⟩ := by
    unfold numericFillStep
    rw [if_pos (show isNumericDtype .float64 from Or.inr (Or.inl rfl))]
  refine ⟨⟨"TotalCharges", .float64,
      (c.values.map toNumericCell).map (numericFillCell .float64)⟩, ?_, rfl, ?_⟩
  · unfold preprocessData
    rw [← h6]
    apply List.mem_map_of_mem
    rw [← h5fix]
    apply List.mem_map_of_mem
    rw [← h4]
    apply List.mem_map_of_mem
    rw [← h3fix]
    exact List.mem_map_of_mem _ h2
  · rw [List.get?_map, List.get?_map, hcell]
    show some (numericFillCell .float64 (toNumericCell (.str s))) = _
    rw [toNumericCell_of_blank hblank]
    rfl

/-- Witness for the amended C8 theorem at a whitespace-only string. -/
theorem blank_total_charges_coercion_witness :
    (((⟨"TotalCharges", .object, [.str " "]⟩ : Column) ∈
        (⟨[⟨"TotalCharges", .object, [.str " "]⟩]⟩ : DataFrame).cols ∧
      ("Churn" : String) ≠ "TotalCharges" ∧
      ([CVal.str " "].get? 0 = some (.str " ")) ∧
      strTrim " " = "") ∧
     (toNumericCell (.str " ") = CVal.na ∧
      ∃ c' ∈ (preprocessData ⟨[⟨"TotalCharges", .object, [.str " "]⟩]⟩ "Churn").cols,
        c'.name = "TotalCharges" ∧ c'.values.get? 0 = some (CVal.num 0))) ∧
    preprocessData ⟨[⟨"TotalCharges", .object, [.str " "]⟩]⟩ "Churn" =
      ⟨[⟨"TotalCharges", .float64, [.num 0]⟩]⟩ := by
  refine ⟨⟨by refine ⟨by decide, by decide, by decide, by decide⟩, ?_⟩, by decide⟩
  exact blank_total_charges_coercion
    ⟨[⟨"TotalCharges", .object, [.str " "]⟩]⟩ "Churn"
    ⟨"TotalCharges", .object, [.str " "]⟩ 0 " "
    (by decide) rfl (by decide) (by decide) (by decide)

theorem xgbBoolColFn_name (c : Column) : (xgbBoolColFn c).name = c.name := by
  unfold xgbBoolColFn
  split <;> rfl

/-- C9: a training run persists exactly two serving artifacts — the
ordered feature-name list (the encoded frame's columns with the target
dropped, order preserved) as a JSON list, and a combined record holding
those same feature names together with the target name. -/
theorem serving_artifacts_exactly_two (df : DataFrame) (target : String) :
    (runPipelineArtifacts df target).length = 2 ∧
    runPipelineArtifacts df target =
      [.jsonList "artifacts/feature_columns.json"
          (((buildFeatures df target).cols.filter
              (fun c => decide (c.name ≠ target))).map Column.name),
       .comboRecord "artifacts/preprocessing.pkl"
          (((buildFeatures df target).cols.filter
              (fun c => decide (c.name ≠ target))).map Column.name)
          target] := by
  refine ⟨rfl, ?_⟩
  unfold runPipelineArtifacts
  have hfc : featureColsOf (xgbBoolStep (buildFeatures df target)) target =
      ((buildFeatures df target).cols.filter
        (fun c => decide (c.name ≠ target))).map Column.name := by
    unfold featureColsOf dropCols xgbBoolStep
    show (((buildFeatures df target).cols.map xgbBoolColFn).filter _).map Column.name = _
    rw [List.filter_map, List.map_map]
    rw [List.filter_congr (fun x _ => ?_), map_congr_mem
      (l := (buildFeatures df target).cols.filter (fun c => decide (c.name ≠ target)))
      (fun x _ => ?_)]
    · show (xgbBoolColFn x).name = x.name
      exact xgbBoolColFn_name x
    · show decide ((xgbBoolColFn x).name ∉ [target]) = decide (x.name ≠ target)
      rw [xgbBoolColFn_name]
      simp
  rw [hfc]

/-- C10: after the call, the caller's frame (heap address `a`) holds
exactly the columns and values it held before — `build_features` never
mutates its input. -/
theorem build_features_no_mutation (h : List DataFrame) (a : Nat) (target : String) :
    ((buildFeaturesCall h a target).1).get? a = h.get? a := by
  unfold buildFeaturesCall
  cases hg : h.get? a with
  | none =>
    show h.get? a = none
    exact hg
  | some df =>
    have hlt : a < h.length := by
      by_contra hge
      rw [List.get?_eq_none.mpr (Nat.le_of_not_lt hge)] at hg
      cases hg
    show (h ++ [buildFeatures df target]).get? a = some df
    rw [List.get?_append hlt]
    exact hg

end TelcoChurn
